import Mathlib

/-!
# Verification of polymedia-suits core utilities

Shallow embedding of the TypeScript utilities in `src/` (Sui RPC latency
prober `testRpcLatency`, coin consolidator `getCoinOfValue`, paginated
dynamic-field fetcher `fetchAllDynamicFields`, and the address normalizer
`removeLeadingZeros`), together with proofs of the specified properties.

Remote services (the Sui JSON-RPC client) are external collaborators; they
are modelled as explicit environment parameters: a function giving each
launched probe's outcome, a function answering `getCoins` queries, and a
scripted sequence of dynamic-field pages. Elapsed milliseconds reported by
the environment are modelled as natural numbers.
-/

namespace PolymediaSuits

/-! ## Latency prober (`testRpcLatency`, src/unnamed/part_000 lines 298-362) -/

/-- A result returned by `testRpcLatency`. In the TypeScript source exactly
one of `latency` / `error` is set (`RpcTestResult` with optional fields). -/
structure RpcTestResult where
  endpoint : String
  latency : Option Nat := none
  error : Option String := none
  deriving Repr, DecidableEq

/-- The probe type selector of `testRpcLatency` (parameter `testType`). -/
inductive RpcTestType where
  | getLatestSuiSystemState
  | getAllBalances
  | getAllCoins
  | getObject
  deriving Repr, DecidableEq

/-- The single remote call a probe issues, as selected by `testType`, with
the hard-coded default targets from the source. -/
inductive RemoteCall where
  | getLatestSuiSystemState
  | getAllBalances (owner : String)
  | getAllCoins (owner : String)
  | getObject (id : String)
  deriving Repr, DecidableEq

/-- Which remote call one probe issues: the dispatch on `testType` inside
`testRpcLatency`, with the source's default targets
(`0xb871...d031` for balances/coins, `0x2` for objects). -/
def probeRemoteCall (testType : RpcTestType) (objectOrAddress : Option String) :
    RemoteCall :=
  match testType with
  | .getLatestSuiSystemState => .getLatestSuiSystemState
  | .getAllBalances => .getAllBalances (objectOrAddress.getD
      "0xb871a42470b59c7184033a688f883cf24eb5e66eae1db62319bab27adb30d031")
  | .getAllCoins => .getAllCoins (objectOrAddress.getD
      "0xb871a42470b59c7184033a688f883cf24eb5e66eae1db62319bab27adb30d031")
  | .getObject => .getObject (objectOrAddress.getD "0x2")

/-- The outcome of the remote call issued by one launched probe: either the
elapsed milliseconds (`performance.now() - startTime` on success) or the
stringified thrown error (`String(err)`). Indexed by the probe's position in
the endpoint list: each list element launches its own, independent call,
so duplicates are probed separately. -/
def ProbeEnv : Type := Nat → Except String Nat

/-- The result one probe settles with: `{ endpoint: url, latency }` on
success, `{ endpoint: url, error: String(err) }` when the try/catch
inside the async closure captures a failure. -/
def probeResult (url : String) (outcome : Except String Nat) : RpcTestResult :=
  match outcome with
  | .ok ms => { endpoint := url, latency := some ms }
  | .error e => { endpoint := url, error := some e }

/-- Model of `testRpcLatency`: maps each endpoint to one concurrently launched probe,
awaits them all (`Promise.allSettled`; every promise fulfills because the
closure catches all errors, so the defensive `rejected` branch is dead code),
and returns the settled values in input order. -/
def testRpcLatency (env : ProbeEnv) (endpoints : List String) :
    List RpcTestResult :=
  endpoints.mapIdx fun i url => probeResult url (env i)

/-! ## The caller's sort (`runTest` in src/src/web-rpcs/src/PageHome.tsx)

`runTest` sorts the results it receives with
`newResults.sort((a, b) => (a.latency ?? 99999) - (b.latency ?? 99999))`.
`Array.prototype.sort` with a numeric comparator is a stable sort ascending
by the comparator key; it is modelled by a stable insertion sort on the key
`latency ?? 99999`. -/

/-- The sort key of the comparator in `runTest`: `a.latency ?? 99999`. -/
def rpcSortKey (r : RpcTestResult) : Nat := r.latency.getD 99999

/-- The ordering the caller's comparator induces. -/
def rpcSortLE (a b : RpcTestResult) : Prop := rpcSortKey a ≤ rpcSortKey b

instance : DecidableRel rpcSortLE :=
  fun a b => Nat.decLe (rpcSortKey a) (rpcSortKey b)

instance : IsTotal RpcTestResult rpcSortLE :=
  ⟨fun a b => Nat.le_total (rpcSortKey a) (rpcSortKey b)⟩

instance : IsTrans RpcTestResult rpcSortLE := ⟨fun _ _ _ => Nat.le_trans⟩

/-- The caller-side sort applied by `runTest` to the prober's results. -/
def sortRpcResults (rs : List RpcTestResult) : List RpcTestResult :=
  rs.insertionSort rpcSortLE

/-- The order the specification claims for the sequence *returned by* the
prober: latencies ascending, and every failure after every latency. -/
def claimedOrder (a b : RpcTestResult) : Prop :=
  match a.latency, b.latency with
  | some x, some y => x ≤ y
  | some _, none => True
  | none, some _ => False
  | none, none => True

instance : DecidableRel claimedOrder := fun a b => by
  unfold claimedOrder
  cases a.latency <;> cases b.latency <;> infer_instance

/-- A result sequence is "sorted as the spec claims" when each pair of
elements, in order, satisfies `claimedOrder`. -/
def resultsSortedAsClaimed (rs : List RpcTestResult) : Prop :=
  rs.Pairwise claimedOrder

instance (rs : List RpcTestResult) : Decidable (resultsSortedAsClaimed rs) :=
  List.instDecidablePairwise rs

/-- Probe outcomes for the spec's end-to-end scenario: endpoint A (index 0)
answers in 50ms, B (index 1) fails, C (index 2) answers in 10ms. -/
def scenarioEnv : ProbeEnv := fun i =>
  if i = 0 then .ok 50
  else if i = 1 then .error "Error: network failure"
  else .ok 10

/-! ## Address normalization (`removeLeadingZeros`, part_000 lines 267-275)

`removeLeadingZeros(address)` is `address.replaceAll(/0x0+/g, "0x")`: a
left-to-right scan that, at each position, greedily matches `0x` followed by
one or more `0`s, replaces the whole match by `0x` (replacements are not
rescanned), and copies unmatched characters unchanged. `rlzAux false`
is the scanner in its normal state; `rlzAux true` is the state right after
emitting a replacement, consuming the remaining zeros of the current match.
On reaching a non-zero character in that state the scanner resumes normally;
no match can start there because every match starts with `0`. -/

/-- Character scanner for the global replacement `/0x0+/g` → `0x`. -/
def rlzAux : Bool → List Char → List Char
  | _, [] => []
  | true, c :: rest =>
    if c = '0' then rlzAux true rest else c :: rlzAux false rest
  | false, '0' :: 'x' :: '0' :: rest => '0' :: 'x' :: rlzAux true rest
  | false, c :: rest => c :: rlzAux false rest

/-- Model of `removeLeadingZeros`: remove redundant zeros after each `0x` in a Sui
address string. -/
def removeLeadingZeros (address : String) : String :=
  String.mk (rlzAux false address.data)

/-! ## Coin consolidator (`getCoinOfValue`, part_000 lines 112-141)

The `SuiClient.getCoins` collaborator is modelled as a function from the
query actually sent (`owner`, `coinType`, and the cursor, which the source
never passes, hence always `none`) to the returned page. The
`TransactionBlock` collaborator is modelled by the list of commands appended
to the block; the returned `TransactionResult` is the output of the final
`splitCoins` command. The remote calls issued are logged. -/

/-- The one field of a returned coin object that `getCoinOfValue` uses. -/
structure CoinStruct where
  coinObjectId : String
  deriving Repr, DecidableEq

/-- A page returned by `SuiClient.getCoins`. -/
structure PaginatedCoins where
  data : List CoinStruct
  hasNextPage : Bool
  nextCursor : Option String := none
  deriving Repr, DecidableEq

/-- A getCoins request as sent over the wire. -/
structure GetCoinsQuery where
  owner : String
  coinType : String
  cursor : Option String
  deriving Repr, DecidableEq

/-- A coin argument inside the transaction block: the implicit gas coin
(`txb.gas`) or an owned object (`txb.object(id)`). -/
inductive TxbArg where
  | gas
  | obj (id : String)
  deriving Repr, DecidableEq

/-- A command appended to the transaction block by `getCoinOfValue`. -/
inductive TxbCmd where
  | splitCoins (target : TxbArg) (amounts : List Nat)
  | mergeCoins (target : TxbArg) (sources : List String)
  deriving Repr, DecidableEq

/-- The observable effect of one `getCoinOfValue` call: the commands
appended to the transaction block (`none` models the `TypeError` thrown
when the returned page is empty and `firstCoin` is `undefined`), and the
remote `getCoins` queries issued, in order. -/
structure ConsolidationOut where
  cmds : Option (List TxbCmd)
  calls : List GetCoinsQuery
  deriving Repr, DecidableEq

/-- Model of `getCoinOfValue`: get a coin of `coinValue` from the owner, merging and
splitting as needed. Mirrors the source: normalize the coin type; for the
native gas coin split from gas with no remote lookup; otherwise issue one
`getCoins` query (no cursor), take the first returned coin as merge target,
merge the remaining coins into it when there are any, and split the value
off it. -/
def getCoinOfValue (getCoins : GetCoinsQuery → PaginatedCoins)
    (ownerAddress coinType : String) (coinValue : Nat) : ConsolidationOut :=
  let ct := removeLeadingZeros coinType
  if ct = "0x2::sui::SUI" then
    { cmds := some [.splitCoins .gas [coinValue]], calls := [] }
  else
    let q : GetCoinsQuery := { owner := ownerAddress, coinType := ct, cursor := none }
    let paginatedCoins := getCoins q
    match paginatedCoins.data with
    | [] => { cmds := none, calls := [q] }
    | firstCoin :: otherCoins =>
      let firstCoinInput := TxbArg.obj firstCoin.coinObjectId
      { cmds := some
          ((if otherCoins.length > 0 then
              [TxbCmd.mergeCoins firstCoinInput
                (otherCoins.map CoinStruct.coinObjectId)]
            else []) ++ [TxbCmd.splitCoins firstCoinInput [coinValue]]),
        calls := [q] }

/-! ## Paginated dynamic-field fetch (`fetchAllDynamicFields`, part_000
lines 68-97)

The remote `getDynamicFields` collaborator is modelled as a script: the
sequence of pages the server answers with, one per request, in order. The
loop state of the source (`allFieldsInfo`, `hasNextPage`, `cursor`) is
passed explicitly; the cursors actually sent are logged (the first request
carries no cursor, each later request carries the previous page's
`nextCursor`). `none` as the overall result models a server that never
answers (the loop would block); the `sleep` between requests and the
`verbose` logging are timing/IO and are not modelled. -/

/-- One page answered by `SuiClient.getDynamicFields`. -/
structure DfPage (α : Type) where
  data : List α
  hasNextPage : Bool
  nextCursor : Option String
  deriving Repr, DecidableEq

/-- The while loop (`while (hasNextPage)`) of `fetchAllDynamicFields`: consume the
next scripted page, append its items to the accumulator, record the cursor
sent, and continue while the page reports more. Returns the accumulated
items and the cursors sent. -/
def fetchAllGo {α : Type} :
    List (DfPage α) → Option String → List α → List (Option String) →
    Option (List α × List (Option String))
  | [], _, _, _ => none
  | page :: script, cursor, acc, sent =>
    if page.hasNextPage then
      fetchAllGo script page.nextCursor (acc ++ page.data)
        (sent ++ [cursor])
    else
      some (acc ++ page.data, sent ++ [cursor])

/-- Model of `fetchAllDynamicFields`: drain all pages starting with no cursor and an
empty accumulator. -/
def fetchAllDynamicFields {α : Type} (script : List (DfPage α)) :
    Option (List α × List (Option String)) :=
  fetchAllGo script none [] []

/-! ## Theorems about the latency prober -/

/-- Claim C3: `testRpcLatency` returns exactly one result per input endpoint:
the output has the length of the input, the element at each position is the
result of that position's own independently launched probe (so duplicate
endpoints are probed independently, with no deduplication), and the empty
endpoint list yields the empty sequence. -/
theorem testRpcLatency_one_result_per_endpoint (env : ProbeEnv)
    (endpoints : List String) :
    (testRpcLatency env endpoints).length = endpoints.length
    ∧ (∀ i : Nat, (testRpcLatency env endpoints)[i]? =
        endpoints[i]?.map fun url => probeResult url (env i))
    ∧ testRpcLatency env [] = [] := by
  refine ⟨List.length_mapIdx, fun i => List.getElem?_mapIdx, rfl⟩

/-- Claim C9: `testRpcLatency` preserves the input order: the i-th result's
`endpoint` field is the i-th input endpoint. The function itself applies no
reordering (sorting happens only in the caller, `runTest`). -/
theorem testRpcLatency_preserves_input_order (env : ProbeEnv)
    (endpoints : List String) (i : Nat) :
    ((testRpcLatency env endpoints)[i]?).map RpcTestResult.endpoint =
      endpoints[i]? := by
  unfold testRpcLatency
  rw [List.getElem?_mapIdx]
  cases h : endpoints[i]? with
  | none => rfl
  | some url => cases henv : env i <;> simp [probeResult, henv]

/-- Witness for `testRpcLatency_preserves_input_order` (trivially, its
binders discharged at a concrete input). -/
theorem testRpcLatency_preserves_input_order_witness :
    ((testRpcLatency scenarioEnv ["A", "B", "C"])[1]?).map
      RpcTestResult.endpoint = (["A", "B", "C"][1]? : Option String) :=
  testRpcLatency_preserves_input_order scenarioEnv ["A", "B", "C"] 1

/-- Claim C2: A failure of a single probe's remote call is captured as an
error result carrying the stringified error for that endpoint only, with the
message non-empty whenever the stringified error is (as `String(err)` of a
JavaScript `Error` always is); `testRpcLatency` is a total function (the
try/catch plus `Promise.allSettled` mean it never throws), and the outcome
of probe `i` has no effect on any other position's result: positions other
than `i` depend only on their own probe's outcome. -/
theorem testRpcLatency_failure_isolation (env env' : ProbeEnv)
    (endpoints : List String) (i : Nat) (e : String)
    (hfail : env i = .error e) (hne : e ≠ "")
    (hagree : ∀ j, j ≠ i → env' j = env j) :
    (testRpcLatency env endpoints)[i]? =
      endpoints[i]?.map (fun url =>
        { endpoint := url, latency := none, error := some e })
    ∧ (∀ m, (testRpcLatency env endpoints)[i]? = some m → m.error ≠ some "")
    ∧ (∀ j, j ≠ i →
        (testRpcLatency env' endpoints)[j]? =
          (testRpcLatency env endpoints)[j]?) := by
  unfold testRpcLatency
  refine ⟨?_, ?_, ?_⟩
  · rw [List.getElem?_mapIdx, hfail]
    rfl
  · intro m hm
    rw [List.getElem?_mapIdx, hfail] at hm
    cases h : endpoints[i]? with
    | none => rw [h] at hm; exact absurd hm (by simp)
    | some url =>
      rw [h, Option.map_some'] at hm
      have : m.error = some e := by rw [← Option.some.inj hm]; rfl
      rw [this]
      exact fun hc => hne (Option.some.inj hc)
  · intro j hj
    rw [List.getElem?_mapIdx, List.getElem?_mapIdx, hagree j hj]

/-- Witness for `testRpcLatency_failure_isolation`: endpoint B's failure in
the end-to-end scenario is captured for B only, and an environment agreeing
everywhere but at B leaves the other positions' results unchanged. -/
theorem testRpcLatency_failure_isolation_witness :
    (testRpcLatency scenarioEnv ["A", "B", "C"])[1]? =
      (["A", "B", "C"] : List String)[1]?.map (fun url =>
        { endpoint := url, latency := none,
          error := some "Error: network failure" })
    ∧ (∀ m, (testRpcLatency scenarioEnv ["A", "B", "C"])[1]? = some m →
        m.error ≠ some "")
    ∧ (∀ j, j ≠ 1 →
        (testRpcLatency
          (fun j => if j = 1 then .ok 7 else scenarioEnv j)
          ["A", "B", "C"])[j]? =
          (testRpcLatency scenarioEnv ["A", "B", "C"])[j]?) := by
  have h := testRpcLatency_failure_isolation scenarioEnv
    (fun j => if j = 1 then .ok 7 else scenarioEnv j)
    ["A", "B", "C"] 1 "Error: network failure" rfl (by decide)
    (fun j hj => by simp [hj])
  exact h

/-- Claim C1, counterexample: The sequence `testRpcLatency` itself returns is
*not* sorted by latency with failures last: probing A (50ms), B (fails),
C (10ms) returns the results in input order
`[A 50ms, B failure, C 10ms]`, which violates the claimed order and differs
from the claimed `[C 10ms, A 50ms, B failure]`. -/
theorem testRpcLatency_not_sorted_counterexample :
    testRpcLatency scenarioEnv ["A", "B", "C"] =
      [⟨"A", some 50, none⟩,
       ⟨"B", none, some "Error: network failure"⟩,
       ⟨"C", some 10, none⟩]
    ∧ ¬ resultsSortedAsClaimed (testRpcLatency scenarioEnv ["A", "B", "C"])
    ∧ testRpcLatency scenarioEnv ["A", "B", "C"] ≠
      [⟨"C", some 10, none⟩,
       ⟨"A", some 50, none⟩,
       ⟨"B", none, some "Error: network failure"⟩] := by
  refine ⟨by decide, ?_, by decide⟩
  intro h
  exact absurd h (by decide)

/-- Claim C1, amended: `testRpcLatency` returns its results in input order;
the ascending-by-latency order with failures last is produced by the caller
(`runTest` in PageHome.tsx), which sorts by the key `latency ?? 99999`. The
caller-sorted sequence is always sorted by that key, and for the scenario
A (50ms), B (fails), C (10ms) it is exactly
`[C 10ms, A 50ms, B failure]`. -/
theorem testRpcLatency_sorted_by_caller :
    (∀ (env : ProbeEnv) (endpoints : List String),
      (sortRpcResults (testRpcLatency env endpoints)).Pairwise rpcSortLE)
    ∧ sortRpcResults (testRpcLatency scenarioEnv ["A", "B", "C"]) =
      [⟨"C", some 10, none⟩,
       ⟨"A", some 50, none⟩,
       ⟨"B", none, some "Error: network failure"⟩] := by
  constructor
  · intro env endpoints
    exact List.sorted_insertionSort rpcSortLE (testRpcLatency env endpoints)
  · decide

/-! ## Theorems about the coin consolidator -/

/-- Claim C4: When the normalized coin type is the native gas coin
`0x2::sui::SUI`, `getCoinOfValue` splits the target value directly from the
gas input and issues no remote `getCoins` call at all. -/
theorem getCoinOfValue_gas_no_lookup (getCoins : GetCoinsQuery → PaginatedCoins)
    (ownerAddress coinType : String) (coinValue : Nat)
    (h : removeLeadingZeros coinType = "0x2::sui::SUI") :
    getCoinOfValue getCoins ownerAddress coinType coinValue =
      { cmds := some [.splitCoins .gas [coinValue]], calls := [] } := by
  unfold getCoinOfValue
  rw [h]
  rfl

/-- Witness for `getCoinOfValue_gas_no_lookup`: the long-form SUI type
normalizes to the gas coin; no query reaches the stub client. -/
theorem getCoinOfValue_gas_no_lookup_witness :
    getCoinOfValue (fun _ => { data := [⟨"0xaaa"⟩], hasNextPage := true })
      "0xo1"
      "0x0000000000000000000000000000000000000000000000000000000000000002::sui::SUI"
      1000 =
      { cmds := some [.splitCoins .gas [1000]], calls := [] } :=
  getCoinOfValue_gas_no_lookup _ _ _ 1000 (by decide)

/-- Claim C5: For a non-gas coin type, when the remote lookup returns coins
`firstCoin :: otherCoins`, the first coin is the merge target: with exactly
one coin the block receives no merge and one split of the target value; with
more than one coin it receives exactly one merge of all remaining coins into
the first, followed by one split of the target value off it. -/
theorem getCoinOfValue_merge_then_split
    (getCoins : GetCoinsQuery → PaginatedCoins)
    (ownerAddress coinType : String) (coinValue : Nat)
    (firstCoin : CoinStruct) (otherCoins : List CoinStruct)
    (hgas : removeLeadingZeros coinType ≠ "0x2::sui::SUI")
    (hdata : (getCoins
        ⟨ownerAddress, removeLeadingZeros coinType, none⟩).data =
      firstCoin :: otherCoins) :
    (otherCoins = [] →
      (getCoinOfValue getCoins ownerAddress coinType coinValue).cmds =
        some [.splitCoins (.obj firstCoin.coinObjectId) [coinValue]])
    ∧ (otherCoins ≠ [] →
      (getCoinOfValue getCoins ownerAddress coinType coinValue).cmds =
        some [.mergeCoins (.obj firstCoin.coinObjectId)
                (otherCoins.map CoinStruct.coinObjectId),
              .splitCoins (.obj firstCoin.coinObjectId) [coinValue]]) := by
  unfold getCoinOfValue
  simp only [if_neg hgas, hdata]
  constructor
  · intro h
    subst h
    rfl
  · intro h
    have hlen : 0 < otherCoins.length := List.length_pos.mpr h
    simp [if_pos hlen]

/-- Witness for `getCoinOfValue_merge_then_split`: a stub client returning
three coins of a non-gas type; the first is the merge target of one merge
with the two remaining sources, then one split. -/
theorem getCoinOfValue_merge_then_split_witness :
    ([⟨"0xc2"⟩, ⟨"0xc3"⟩] ≠ ([] : List CoinStruct)) ∧
    (getCoinOfValue
        (fun _ => { data := [⟨"0xc1"⟩, ⟨"0xc2"⟩, ⟨"0xc3"⟩],
                    hasNextPage := false })
        "0xo1" "0xabc::usdc::USDC" 5).cmds =
      some [.mergeCoins (.obj "0xc1") ["0xc2", "0xc3"],
            .splitCoins (.obj "0xc1") [5]] := by
  refine ⟨by decide, ?_⟩
  exact (getCoinOfValue_merge_then_split
    (fun _ => { data := [⟨"0xc1"⟩, ⟨"0xc2"⟩, ⟨"0xc3"⟩], hasNextPage := false })
    "0xo1" "0xabc::usdc::USDC" 5 ⟨"0xc1"⟩ [⟨"0xc2"⟩, ⟨"0xc3"⟩]
    (by decide) (by decide)).2 (by decide)

/-- Claim C7: For every non-gas consolidation, `getCoinOfValue` issues exactly
one `getCoins` request, with no cursor, and never requests a second page —
even when the returned page reports `hasNextPage = true`; and every coin it
merges comes from that first page. -/
theorem getCoinOfValue_single_page (getCoins : GetCoinsQuery → PaginatedCoins)
    (ownerAddress coinType : String) (coinValue : Nat)
    (hgas : removeLeadingZeros coinType ≠ "0x2::sui::SUI") :
    (getCoinOfValue getCoins ownerAddress coinType coinValue).calls =
      [⟨ownerAddress, removeLeadingZeros coinType, none⟩]
    ∧ (∀ cs, (getCoinOfValue getCoins ownerAddress coinType coinValue).cmds =
          some cs →
        ∀ t srcs, TxbCmd.mergeCoins t srcs ∈ cs →
        ∀ s ∈ srcs,
          s ∈ (getCoins
            ⟨ownerAddress, removeLeadingZeros coinType, none⟩).data.map
            CoinStruct.coinObjectId) := by
  unfold getCoinOfValue
  simp only [if_neg hgas]
  cases hdata : (getCoins
      ⟨ownerAddress, removeLeadingZeros coinType, none⟩).data with
  | nil =>
    refine ⟨rfl, ?_⟩
    intro cs hcs
    exact absurd hcs (by simp)
  | cons firstCoin otherCoins =>
    refine ⟨rfl, ?_⟩
    intro cs hcs t srcs hmem s hs
    rw [Option.some.inj hcs.symm] at hmem
    rw [List.mem_append] at hmem
    rcases hmem with hmem | hmem
    · by_cases hlen : 0 < otherCoins.length
      · rw [if_pos hlen, List.mem_singleton] at hmem
        have hsrcs : srcs = otherCoins.map CoinStruct.coinObjectId := by
          injection hmem with _ h2
        rw [hsrcs] at hs
        simp only [List.map_cons, List.mem_cons]
        exact Or.inr hs
      · rw [if_neg hlen] at hmem
        exact absurd hmem (List.not_mem_nil _)
    · rw [List.mem_singleton] at hmem
      exact absurd hmem (by simp)

/-- Witness for `getCoinOfValue_single_page`: a stub client whose page
reports `hasNextPage = true` still receives exactly one cursorless query,
and the merged sources all come from that page. -/
theorem getCoinOfValue_single_page_witness :
    (getCoinOfValue
        (fun _ => { data := [⟨"0xc1"⟩, ⟨"0xc2"⟩], hasNextPage := true })
        "0xo1" "0xabc::usdc::USDC" 5).calls =
      [⟨"0xo1", "0xabc::usdc::USDC", none⟩]
    ∧ (∀ cs, (getCoinOfValue
          (fun _ => { data := [⟨"0xc1"⟩, ⟨"0xc2"⟩], hasNextPage := true })
          "0xo1" "0xabc::usdc::USDC" 5).cmds = some cs →
        ∀ t srcs, TxbCmd.mergeCoins t srcs ∈ cs →
        ∀ s ∈ srcs,
          s ∈ ((fun (_ : GetCoinsQuery) =>
              ({ data := [⟨"0xc1"⟩, ⟨"0xc2"⟩],
                 hasNextPage := true } : PaginatedCoins))
            ⟨"0xo1", "0xabc::usdc::USDC", none⟩).data.map
            CoinStruct.coinObjectId) := by
  have h := getCoinOfValue_single_page
    (fun _ => { data := [⟨"0xc1"⟩, ⟨"0xc2"⟩], hasNextPage := true })
    "0xo1" "0xabc::usdc::USDC" 5 (by decide)
  have hnorm : removeLeadingZeros "0xabc::usdc::USDC" = "0xabc::usdc::USDC" := by
    decide
  rw [hnorm] at h
  exact h

/-- The loop characterized for any starting state: with `ps` pages that all
report more and a final page `p` that does not, it accumulates exactly the
pages' items in page order and sends the starting cursor followed by each
consumed page's `nextCursor` except the last. -/
theorem fetchAllGo_spec {α : Type} (ps : List (DfPage α)) (p : DfPage α)
    (extra : List (DfPage α)) (cursor : Option String) (acc : List α)
    (sent : List (Option String))
    (hps : ∀ q ∈ ps, q.hasNextPage = true) (hp : p.hasNextPage = false) :
    fetchAllGo (ps ++ p :: extra) cursor acc sent =
      some (acc ++ (ps.map DfPage.data).flatten ++ p.data,
            sent ++ cursor :: ps.map DfPage.nextCursor) := by
  induction ps generalizing cursor acc sent with
  | nil =>
    simp [fetchAllGo, hp]
  | cons q ps ih =>
    have hq : q.hasNextPage = true := hps q (List.mem_cons_self q ps)
    simp only [List.cons_append, fetchAllGo, if_pos hq, List.append_eq]
    rw [ih _ _ _ (fun r hr => hps r (List.mem_cons_of_mem q hr))]
    simp [List.append_assoc]

/-- Claim C6: `fetchAllDynamicFields` requests pages starting with no cursor,
then the previous page's cursor; it appends each page's items to the
accumulator in page order, keeps requesting exactly while the server reports
more pages, and returns the concatenation of all pages up to and including
the first page with `hasNextPage = false` — pages after it are never
requested. -/
theorem fetchAllDynamicFields_concat {α : Type} (ps : List (DfPage α))
    (p : DfPage α) (extra : List (DfPage α))
    (hps : ∀ q ∈ ps, q.hasNextPage = true) (hp : p.hasNextPage = false) :
    fetchAllDynamicFields (ps ++ p :: extra) =
      some ((ps.map DfPage.data).flatten ++ p.data,
            none :: ps.map DfPage.nextCursor) := by
  unfold fetchAllDynamicFields
  rw [fetchAllGo_spec ps p extra none [] [] hps hp]
  simp

/-- Witness for `fetchAllDynamicFields_concat`: three pages of sizes
[2, 2, 1] yield the 5 items in page-then-item order, with the cursors sent
being none, then the first and second pages' cursors. -/
theorem fetchAllDynamicFields_concat_witness :
    fetchAllDynamicFields
        ([⟨["a1", "a2"], true, some "c1"⟩, ⟨["b1", "b2"], true, some "c2"⟩]
          ++ ⟨["e1"], false, none⟩ :: []) =
      some ((([⟨["a1", "a2"], true, some "c1"⟩,
               ⟨["b1", "b2"], true, some "c2"⟩] :
              List (DfPage String)).map DfPage.data).flatten ++ ["e1"],
            none :: ([⟨["a1", "a2"], true, some "c1"⟩,
                      ⟨["b1", "b2"], true, some "c2"⟩] :
              List (DfPage String)).map DfPage.nextCursor)
    ∧ ((([⟨["a1", "a2"], true, some "c1"⟩,
          ⟨["b1", "b2"], true, some "c2"⟩] :
          List (DfPage String)).map DfPage.data).flatten ++ ["e1"] =
        ["a1", "a2", "b1", "b2", "e1"]) := by
  refine ⟨?_, by decide⟩
  exact fetchAllDynamicFields_concat
    [⟨["a1", "a2"], true, some "c1"⟩, ⟨["b1", "b2"], true, some "c2"⟩]
    ⟨["e1"], false, none⟩ [] (by decide) (by decide)

/-! ## Theorems about the address normalizer -/

/-- The replacement `0x` emitted for a match of `/0x0+/g`, followed by the
zeros the greedy match consumed. -/
theorem rlzAux_false_match (r : List Char) :
    rlzAux false ('0' :: 'x' :: '0' :: r) = '0' :: 'x' :: rlzAux true r := rfl

/-- While consuming a match, every further zero is part of the match. -/
theorem rlzAux_true_zero (r : List Char) :
    rlzAux true ('0' :: r) = rlzAux true r := rfl

/-- The first non-zero character after a match ends it; scanning resumes. -/
theorem rlzAux_true_ne (c : Char) (r : List Char) (h : c ≠ '0') :
    rlzAux true (c::r) = c :: rlzAux false r := by
  simp [rlzAux, h]

/-- No match starts at a character other than `0`, so it is copied. -/
theorem rlzAux_false_ne (c : Char) (r : List Char) (h : c ≠ '0') :
    rlzAux false (c::r) = c :: rlzAux false r := by
  simp [rlzAux, h]

/-- A pair `0x` not followed by a zero is not a match; both characters are
copied. -/
theorem rlzAux_false_zx (t : List Char) (h : t.head? ≠ some '0') :
    rlzAux false ('0' :: 'x' :: t) = '0' :: 'x' :: rlzAux false t := by
  cases t with
  | nil => rfl
  | cons z t' =>
    have hz : z ≠ '0' := by simpa using h
    simp [rlzAux, hz]

/-- A zero not followed by `x` is not a match; it is copied. -/
theorem rlzAux_false_z_notx (t : List Char) (h : t.head? ≠ some 'x') :
    rlzAux false ('0' :: t) = '0' :: rlzAux false t := by
  cases t with
  | nil => rfl
  | cons y t' =>
    have hy : y ≠ 'x' := by simpa using h
    simp [rlzAux, hy]

/-- The scan preserves the first character of the string: a match itself
begins with the `0` it re-emits. -/
theorem rlzAux_false_head? (l : List Char) :
    (rlzAux false l).head? = l.head? := by
  cases l with
  | nil => rfl
  | cons c r =>
    by_cases h0 : c = '0'
    · subst h0
      cases r with
      | nil => rfl
      | cons x r1 =>
        by_cases hx : x = 'x'
        · subst hx
          cases r1 with
          | nil => rfl
          | cons z r2 =>
            by_cases hz : z = '0'
            · subst hz; rfl
            · simp [rlzAux, hz]
        · simp [rlzAux, hx]
    · simp [rlzAux, h0]

/-- What follows a completed match never starts with a zero: the greedy
match consumed every adjacent zero. -/
theorem rlzAux_true_head_ne (l : List Char) :
    (rlzAux true l).head? ≠ some '0' := by
  induction l with
  | nil => simp [rlzAux]
  | cons c r ih =>
    by_cases h : c = '0'
    · subst h; rw [rlzAux_true_zero]; exact ih
    · rw [rlzAux_true_ne c r h]; simpa using h

/-- The scan is idempotent, in both scanner states, by strong induction on
the string length: a rescan of the output finds no new match, because a
replacement `0x` is never followed by a zero and unmatched text was already
match-free. -/
theorem rlzAux_idem_both :
    ∀ n, ∀ l : List Char, l.length ≤ n →
    rlzAux false (rlzAux false l) = rlzAux false l
    ∧ rlzAux false (rlzAux true l) = rlzAux true l := by
  intro n
  induction n with
  | zero =>
    intro l hl
    have : l = [] := List.length_eq_zero.mp (Nat.le_zero.mp hl)
    subst this
    exact ⟨rfl, rfl⟩
  | succ n ih =>
    intro l hl
    constructor
    · cases l with
      | nil => rfl
      | cons c r =>
        have hlr : r.length ≤ n := by
          simp only [List.length_cons] at hl; omega
        by_cases h0 : c = '0'
        · subst h0
          cases r with
          | nil => rfl
          | cons x r1 =>
            have hlr1 : r1.length ≤ n := by
              simp only [List.length_cons] at hl; omega
            by_cases hx : x = 'x'
            · subst hx
              cases r1 with
              | nil => rfl
              | cons z r2 =>
                have hlr2 : r2.length ≤ n := by
                  simp only [List.length_cons] at hl; omega
                by_cases hz : z = '0'
                · subst hz
                  rw [rlzAux_false_match,
                      rlzAux_false_zx _ (rlzAux_true_head_ne r2),
                      (ih r2 hlr2).2]
                · rw [rlzAux_false_zx (z::r2) (by simp [hz]),
                      rlzAux_false_zx _
                        (by rw [rlzAux_false_head?]; simp [hz]),
                      (ih (z::r2) hlr1).1]
            · rw [rlzAux_false_z_notx (x::r1) (by simp [hx]),
                  rlzAux_false_z_notx _
                    (by rw [rlzAux_false_head?]; simp [hx]),
                  (ih (x::r1) hlr).1]
        · rw [rlzAux_false_ne c r h0, rlzAux_false_ne c _ h0, (ih r hlr).1]
    · cases l with
      | nil => rfl
      | cons c r =>
        have hlr : r.length ≤ n := by
          simp only [List.length_cons] at hl; omega
        by_cases h0 : c = '0'
        · subst h0
          rw [rlzAux_true_zero]
          exact (ih r hlr).2
        · rw [rlzAux_true_ne c r h0, rlzAux_false_ne c _ h0, (ih r hlr).1]

/-- Claim C8: `removeLeadingZeros` maps the address written with 62 leading
zeros then `2` to `0x2`, likewise the full 64-hex-digit form from the
source's doc comment, maps `0x2` to itself, and is idempotent on every
input string. -/
theorem removeLeadingZeros_canonical_idempotent :
    removeLeadingZeros
        "0x000000000000000000000000000000000000000000000000000000000000002" =
      "0x2"
    ∧ removeLeadingZeros
        "0x0000000000000000000000000000000000000000000000000000000000000002" =
      "0x2"
    ∧ removeLeadingZeros "0x2" = "0x2"
    ∧ ∀ x : String,
        removeLeadingZeros (removeLeadingZeros x) = removeLeadingZeros x := by
  refine ⟨by decide, by decide, by decide, ?_⟩
  intro x
  show String.mk (rlzAux false (rlzAux false x.data)) = _
  rw [(rlzAux_idem_both x.data.length x.data (Nat.le_refl _)).1]
  rfl

/-- Every run of zeros after a match is dropped whole. -/
theorem rlzAux_true_replicate_zero (k : Nat) :
    rlzAux true (List.replicate k '0') = [] := by
  induction k with
  | zero => rfl
  | succ k ih => rw [List.replicate_succ, rlzAux_true_zero]; exact ih

/-- Claim C10: On a string that is `0x` followed only by zeros (such as `0x0`
or the all-zero address), `removeLeadingZeros` returns the bare `0x`,
dropping the address digits entirely — the output differs from the input,
so this normalization is not value-preserving on all-zero segments. -/
theorem removeLeadingZeros_all_zero (n : Nat) (h : 1 ≤ n) :
    removeLeadingZeros ("0x" ++ String.mk (List.replicate n '0')) = "0x"
    ∧ "0x" ≠ "0x" ++ String.mk (List.replicate n '0') := by
  constructor
  · unfold removeLeadingZeros
    have hdata : ("0x" ++ String.mk (List.replicate n '0')).data
        = '0' :: 'x' :: List.replicate n '0' := by
      rw [String.data_append]
      rfl
    rw [hdata]
    obtain ⟨m, rfl⟩ : ∃ m, n = m + 1 := ⟨n - 1, by omega⟩
    rw [List.replicate_succ, rlzAux_false_match, rlzAux_true_replicate_zero]
  · intro hc
    have hlen := congrArg String.length hc
    rw [String.length_append] at hlen
    have : (String.mk (List.replicate n '0')).length = n := by
      show (List.replicate n '0').length = n
      exact List.length_replicate n '0'
    omega

/-- Witness for `removeLeadingZeros_all_zero`: the single-zero string
`0x0` maps to the bare `0x`. -/
theorem removeLeadingZeros_all_zero_witness :
    ("0x" ++ String.mk (List.replicate 1 '0') = "0x0")
    ∧ removeLeadingZeros ("0x" ++ String.mk (List.replicate 1 '0')) = "0x"
    ∧ "0x" ≠ "0x" ++ String.mk (List.replicate 1 '0') := by
  have h := removeLeadingZeros_all_zero 1 (by decide)
  exact ⟨by decide, h.1, h.2⟩

end PolymediaSuits
